import Mathlib

/-!
Shallow embedding of `sql-fingerprint` (src/src/lib.rs) in Lean 4.

The crate rewrites parsed SQL statement trees in place (a `VisitorMut`
implementation, `FingerprintingVisitor`) and re-serializes them.  We embed
the fragment of the `sqlparser` AST that the claims about this crate
exercise: SELECT queries (projection, DISTINCT ON, FROM with joins, WHERE,
GROUP BY), set operations, VALUES bodies, derived tables, ORDER BY,
LIMIT/OFFSET, and the transaction statements SAVEPOINT / RELEASE SAVEPOINT /
ROLLBACK TO SAVEPOINT.  AST variants the visitor leaves untouched and that no
claim mentions (INSERT/UPDATE/DELETE/DECLARE statement rules, UNNEST table
factors, USING join constraints, spans) are omitted from the fragment; on the
omitted statement kinds every rule of the source is a no-op or is not needed
by any claim.

Mutable in-place rewriting becomes explicit state passing: the only state the
visitor carries across nodes is `savepoint_ids : HashMap<String, String>`,
which we model as an association list with the same `len` / `insert`
(overwrite) / `get` behaviour.  All hooks return `ControlFlow::Continue`, so
the control-flow layer is dropped.  Parsing (`Parser::parse_sql`) is an
external collaborator and is a parameter of the batch driver; serialization
(`Display` on `Statement`) is modelled concretely for the fragment, matching
the renderings pinned down by the crate's own test-suite.
-/

namespace SqlFingerprint

/-- The character test of `maybe_unquote_ident`
(`c.is_alphanumeric() || c == '_'`, lib.rs 377), relative to the
alphanumeric classifier.  Rust's `char::is_alphanumeric` is Unicode-table
code of the standard library — an external collaborator of this crate, like
the parser — so the embedding takes the classifier `alnum` as a parameter;
the unquoting claim is settled for every classifier, hence in particular for
the library's. -/
def isWordCharWith (alnum : Char → Bool) (c : Char) : Bool :=
  alnum c || c == '_'

/-- Executable instantiation of the character test at Lean's ASCII
`Char.isAlphanum`, used by the concrete batch model below (a stand-in for
the external Unicode classifier; no classifier-sensitive claim is stated
against it). -/
def isWordChar (c : Char) : Bool :=
  isWordCharWith Char.isAlphanum c

/-- `sqlparser::ast::Ident`: a name with an optional quote character.
The span field is dropped (never read by the crate). -/
structure Ident where
  value : String
  quoteStyle : Option Char
deriving DecidableEq, Repr

/-- `Ident::new`: an identifier with no quoting. -/
def Ident.new (s : String) : Ident :=
  { value := s, quoteStyle := none }

/-- `maybe_unquote_ident` (lib.rs 372-380), relative to the library's
alphanumeric classifier: drop the quote style when every character of the
value is alphanumeric or an underscore. -/
def maybe_unquote_ident_with (alnum : Char → Bool) (ident : Ident) : Ident :=
  if ident.value.all (isWordCharWith alnum) then { ident with quoteStyle := none }
  else ident

/-- Executable instantiation of `maybe_unquote_ident` at the ASCII
classifier, used by the concrete batch model below. -/
def maybe_unquote_ident (ident : Ident) : Ident :=
  maybe_unquote_ident_with Char.isAlphanum ident

/-- `sqlparser::ast::Value` (the variants the fragment needs). -/
inductive Value where
  | Placeholder (s : String)
  | Number (s : String)
  | SingleQuotedString (s : String)
deriving DecidableEq, Repr

/-- `sqlparser::ast::Expr` fragment.  `Expr::Value(ValueWithSpan)` loses its
span.  Identifier, compound identifier and binary operator nodes are the
expression shapes the visitor's hooks distinguish. -/
inductive Expr where
  | Identifier (ident : Ident)
  | CompoundIdentifier (idents : List Ident)
  | Value (v : Value)
  | BinaryOp (left : Expr) (op : String) (right : Expr)
deriving DecidableEq, Repr

/-- `placeholder_value()` (lib.rs 365-370). -/
def placeholder_value : Expr :=
  Expr.Value (Value.Placeholder "...")

/-- `pre_visit_expr` (lib.rs 349-362) fused with the generic descent of
`VisitMut` into sub-expressions, relative to the alphanumeric classifier:
the hook unquotes bare and compound identifiers, every other expression is
just traversed. -/
def visitExprWith (alnum : Char → Bool) : Expr → Expr
  | Expr.Identifier ident => Expr.Identifier (maybe_unquote_ident_with alnum ident)
  | Expr.CompoundIdentifier idents =>
      Expr.CompoundIdentifier (idents.map (maybe_unquote_ident_with alnum))
  | Expr.Value v => Expr.Value v
  | Expr.BinaryOp l op r =>
      Expr.BinaryOp (visitExprWith alnum l) op (visitExprWith alnum r)

/-- Executable instantiation of the expression hook at the ASCII
classifier (it coincides with `visitExprWith Char.isAlphanum`; see the C5
theorem). -/
def visitExpr : Expr → Expr
  | Expr.Identifier ident => Expr.Identifier (maybe_unquote_ident ident)
  | Expr.CompoundIdentifier idents =>
      Expr.CompoundIdentifier (idents.map maybe_unquote_ident)
  | Expr.Value v => Expr.Value v
  | Expr.BinaryOp l op r => Expr.BinaryOp (visitExpr l) op (visitExpr r)

/-- `sqlparser::ast::ObjectNamePart`. -/
inductive ObjectNamePart where
  | Identifier (ident : Ident)
deriving DecidableEq, Repr

/-- `sqlparser::ast::ObjectName` (a tuple struct around a vector of parts). -/
abbrev ObjectName := List ObjectNamePart

/-- `pre_visit_relation` (lib.rs 317-324), relative to the alphanumeric
classifier: unquote every identifier part of a relation name. -/
def visitRelationWith (alnum : Char → Bool) (relation : ObjectName) : ObjectName :=
  relation.map fun part =>
    match part with
    | ObjectNamePart.Identifier ident =>
        ObjectNamePart.Identifier (maybe_unquote_ident_with alnum ident)

/-- Executable instantiation of the relation hook at the ASCII classifier
(it coincides with `visitRelationWith Char.isAlphanum`; see the C5
theorem). -/
def visitRelation (relation : ObjectName) : ObjectName :=
  relation.map fun part =>
    match part with
    | ObjectNamePart.Identifier ident =>
        ObjectNamePart.Identifier (maybe_unquote_ident ident)

/-- `sqlparser::ast::SelectItem` fragment. -/
inductive SelectItem where
  | UnnamedExpr (e : Expr)
  | ExprWithAlias (e : Expr) (alias_ : Ident)
  | Wildcard
deriving DecidableEq, Repr

/-- `sqlparser::ast::Distinct` fragment. -/
inductive Distinct where
  | Distinct
  | On (exprs : List Expr)
deriving DecidableEq, Repr

/-- `sqlparser::ast::GroupByExpr` (modifier lists dropped). -/
inductive GroupByExpr where
  | All
  | Expressions (exprs : List Expr)
deriving DecidableEq, Repr

/-- `sqlparser::ast::JoinConstraint` fragment. -/
inductive JoinConstraint where
  | On (e : Expr)
  | Natural
  | None
deriving DecidableEq, Repr

/-- `sqlparser::ast::JoinOperator` fragment: the constraint-carrying variants
the visitor matches (lib.rs 98-110) plus `CrossJoin` for the `_` arm. -/
inductive JoinOperator where
  | Join (c : JoinConstraint)
  | Inner (c : JoinConstraint)
  | Left (c : JoinConstraint)
  | LeftOuter (c : JoinConstraint)
  | Right (c : JoinConstraint)
  | RightOuter (c : JoinConstraint)
  | FullOuter (c : JoinConstraint)
  | CrossJoin
deriving DecidableEq, Repr

/-- `sqlparser::ast::OrderByOptions`. -/
structure OrderByOptions where
  asc : Option Bool
  nullsFirst : Option Bool
deriving DecidableEq, Repr

/-- `sqlparser::ast::OrderByExpr` (`with_fill` dropped). -/
structure OrderByExpr where
  expr : Expr
  options : OrderByOptions
deriving DecidableEq, Repr

/-- `sqlparser::ast::OrderByKind`. -/
inductive OrderByKind where
  | All (options : OrderByOptions)
  | Expressions (exprs : List OrderByExpr)
deriving DecidableEq, Repr

/-- `sqlparser::ast::OrderBy` (`interpolate` dropped). -/
structure OrderBy where
  kind : OrderByKind
deriving DecidableEq, Repr

/-- `sqlparser::ast::OffsetRows`. -/
inductive OffsetRows where
  | None
  | Row
  | Rows
deriving DecidableEq, Repr

/-- `sqlparser::ast::Offset`. -/
structure Offset where
  value : Expr
  rows : OffsetRows
deriving DecidableEq, Repr

/-- `sqlparser::ast::LimitClause`. -/
inductive LimitClause where
  | LimitOffset (limit : Option Expr) (offset : Option Offset) (limitBy : List Expr)
  | OffsetCommaLimit (offset : Expr) (limit : Expr)
deriving DecidableEq, Repr

/-- `sqlparser::ast::SetOperator`. -/
inductive SetOperator where
  | Union
  | Except
  | Intersect
deriving DecidableEq, Repr

/-- `sqlparser::ast::SetQuantifier` fragment. -/
inductive SetQuantifier where
  | All
  | None
deriving DecidableEq, Repr

mutual

/-- `sqlparser::ast::Select` fragment: the fields `visit_select`
(lib.rs 76-129) reads or writes. -/
inductive Select where
  | mk (distinct : Option Distinct) (projection : List SelectItem)
      (from_ : List TableWithJoins) (selection : Option Expr)
      (groupBy : GroupByExpr)

/-- `sqlparser::ast::TableWithJoins`. -/
inductive TableWithJoins where
  | mk (relation : TableFactor) (joins : List Join)

/-- `sqlparser::ast::Join` (`global` flag dropped). -/
inductive Join where
  | mk (relation : TableFactor) (joinOperator : JoinOperator)

/-- `sqlparser::ast::TableFactor` fragment: named tables and derived
(parenthesized sub-query) tables. -/
inductive TableFactor where
  | Table (name : ObjectName) (alias_ : Option Ident)
  | Derived (subquery : Query) (alias_ : Option Ident)

/-- `sqlparser::ast::SetExpr` fragment. -/
inductive SetExpr where
  | Select (s : Select)
  | Query (q : Query)
  | SetOperation (op : SetOperator) (setQuantifier : SetQuantifier)
      (left : SetExpr) (right : SetExpr)
  | Values (rows : List (List Expr))

/-- `sqlparser::ast::Query` fragment: body, ORDER BY and limit clause (the
fields `pre_visit_query` reads or writes). -/
inductive Query where
  | mk (body : SetExpr) (orderBy : Option OrderBy) (limitClause : Option LimitClause)

end

def Select.projection : Select → List SelectItem
  | Select.mk _ p _ _ _ => p

def Select.distinct : Select → Option Distinct
  | Select.mk d _ _ _ _ => d

def Select.from_ : Select → List TableWithJoins
  | Select.mk _ _ f _ _ => f

def Select.selection : Select → Option Expr
  | Select.mk _ _ _ s _ => s

def Select.groupBy : Select → GroupByExpr
  | Select.mk _ _ _ _ g => g

def Query.body : Query → SetExpr
  | Query.mk b _ _ => b

def Query.orderBy : Query → Option OrderBy
  | Query.mk _ ob _ => ob

def Query.limitClause : Query → Option LimitClause
  | Query.mk _ _ lc => lc

/-! ### The hook bodies of `FingerprintingVisitor`

These functions correspond line by line to the rewrite rules of the visitor.
They carry no state: of all the hooks only `pre_visit_statement` touches
`savepoint_ids`, and statements never nest below statements in the fragment,
so everything below statement level is a pure tree transformation. -/

/-- The join rewriting inside `visit_select` (lib.rs 95-118): for every join
whose operator carries an `ON` constraint, collapse the constraint expression
to a placeholder.  Join kinds and other constraint kinds are untouched. -/
def rewriteJoinOperator : JoinOperator → JoinOperator
  | JoinOperator.Join c => JoinOperator.Join (rewriteJoinConstraint c)
  | JoinOperator.Inner c => JoinOperator.Inner (rewriteJoinConstraint c)
  | JoinOperator.Left c => JoinOperator.Left (rewriteJoinConstraint c)
  | JoinOperator.LeftOuter c => JoinOperator.LeftOuter (rewriteJoinConstraint c)
  | JoinOperator.Right c => JoinOperator.Right (rewriteJoinConstraint c)
  | JoinOperator.RightOuter c => JoinOperator.RightOuter (rewriteJoinConstraint c)
  | JoinOperator.FullOuter c => JoinOperator.FullOuter (rewriteJoinConstraint c)
  | JoinOperator.CrossJoin => JoinOperator.CrossJoin
where
  /-- `if let JoinConstraint::On(expr) = constraint { *expr = placeholder }` -/
  rewriteJoinConstraint : JoinConstraint → JoinConstraint
    | JoinConstraint.On _ => JoinConstraint.On placeholder_value
    | c => c

/-- The per-`TableWithJoins` part of the join loop: relations untouched,
every join's operator rewritten. -/
def rewriteJoinsInTWJ : TableWithJoins → TableWithJoins
  | TableWithJoins.mk relation joins =>
      TableWithJoins.mk relation (joins.map (fun j =>
        match j with
        | Join.mk rel op => Join.mk rel (rewriteJoinOperator op)))

/-- The projection rule of `visit_select` (lib.rs 77-87): when the list is
non-empty, replace a leading plain/aliased expression item by an unnamed
placeholder item, then truncate the list to one item. -/
def ruleProjection (projection : List SelectItem) : List SelectItem :=
  if projection.isEmpty then projection
  else
    (match projection with
     | [] => []
     | item :: rest =>
         (match item with
          | SelectItem.UnnamedExpr _ => SelectItem.UnnamedExpr placeholder_value
          | SelectItem.ExprWithAlias _ _ => SelectItem.UnnamedExpr placeholder_value
          | _ => item) :: rest).take 1

/-- The `DISTINCT ON` rule of `visit_select` (lib.rs 89-93). -/
def ruleDistinct : Option Distinct → Option Distinct
  | some (Distinct.On exprs) =>
      some (Distinct.On (if exprs.isEmpty then exprs else [placeholder_value]))
  | d => d

/-- The `GROUP BY` rule of `visit_select` (lib.rs 124-128). -/
def ruleGroupBy : GroupByExpr → GroupByExpr
  | GroupByExpr.Expressions exprs =>
      GroupByExpr.Expressions (if exprs.isEmpty then exprs else [placeholder_value])
  | g => g

/-- `FingerprintingVisitor::visit_select` (lib.rs 76-129).  Field by field:
projection (replace a leading plain/aliased expression by an unnamed
placeholder, then truncate to one item, unless empty), `DISTINCT ON`
(collapse a non-empty expression list), joins (collapse `ON` predicates),
`WHERE` (collapse), `GROUP BY` (collapse a non-empty expression list). -/
def applySelectRules : Select → Select
  | Select.mk distinct projection from_ selection groupBy =>
      Select.mk
        (ruleDistinct distinct)
        (ruleProjection projection)
        (from_.map rewriteJoinsInTWJ)
        (selection.map (fun _ => placeholder_value))
        (ruleGroupBy groupBy)

/-- The body handling of `pre_visit_statement`'s query hook
(`pre_visit_query`, lib.rs 255-278): apply `visit_select` to the body if it
is a plain SELECT, and to every leaf SELECT of a set-operation tree (the
source expands nested operands with an explicit stack; popping order is
irrelevant because the rewriting is stateless, so the expansion is the
structural recursion below).  Other body kinds (nested parenthesized
queries, VALUES) are skipped by this hook. -/
def rewriteSetOpLeaves : SetExpr → SetExpr
  | SetExpr.Select s => SetExpr.Select (applySelectRules s)
  | SetExpr.SetOperation op q l r =>
      SetExpr.SetOperation op q (rewriteSetOpLeaves l) (rewriteSetOpLeaves r)
  | e => e

/-- The ORDER BY handling of `pre_visit_query` (lib.rs 279-289): on an
explicit non-empty expression list, replace the first entry's expression by a
placeholder (options kept) and truncate the list to that entry. -/
def rewriteOrderBy : Option OrderBy → Option OrderBy
  | some ob =>
      (match ob.kind with
       | OrderByKind.Expressions exprs =>
           if exprs.isEmpty then some ob
           else
             some { kind := OrderByKind.Expressions
                      ((match exprs with
                        | [] => []
                        | e :: rest => { e with expr := placeholder_value } :: rest).take 1) }
       | _ => some ob)
  | none => none

/-- The limit handling of `pre_visit_query` (lib.rs 290-313): collapse each
present operand of either limit-clause form to a placeholder. -/
def rewriteLimitClause : Option LimitClause → Option LimitClause
  | some (LimitClause.LimitOffset limit offset limitBy) =>
      some (LimitClause.LimitOffset
        (limit.map (fun _ => placeholder_value))
        (offset.map (fun o => { o with value := placeholder_value }))
        (if limitBy.isEmpty then limitBy else [placeholder_value]))
  | some (LimitClause.OffsetCommaLimit _ _) =>
      some (LimitClause.OffsetCommaLimit placeholder_value placeholder_value)
  | none => none

/-! ### Generic descent

`stmt.visit(&mut visitor)` walks the whole tree; the hooks above fire
pre-order at `Query` nodes, and `pre_visit_expr` / `pre_visit_relation` fire
at every expression / object name.  The functions below compose the hook with
the descent into the (already hook-rewritten) children. -/

/-- Descent through a projection item: its expression is visited
(`pre_visit_expr` fires inside), alias identifiers carry no hook. -/
def descendSelectItem : SelectItem → SelectItem
  | SelectItem.UnnamedExpr e => SelectItem.UnnamedExpr (visitExpr e)
  | SelectItem.ExprWithAlias e a => SelectItem.ExprWithAlias (visitExpr e) a
  | SelectItem.Wildcard => SelectItem.Wildcard

/-- Descent through `DISTINCT [ON (...)]`. -/
def descendDistinct : Option Distinct → Option Distinct
  | some (Distinct.On exprs) => some (Distinct.On (exprs.map visitExpr))
  | d => d

/-- Descent through `GROUP BY`. -/
def descendGroupBy : GroupByExpr → GroupByExpr
  | GroupByExpr.Expressions exprs => GroupByExpr.Expressions (exprs.map visitExpr)
  | g => g

/-- Descent through a join operator's constraint expression. -/
def descendJoinOperator : JoinOperator → JoinOperator
  | JoinOperator.Join c => JoinOperator.Join (descendJoinConstraint c)
  | JoinOperator.Inner c => JoinOperator.Inner (descendJoinConstraint c)
  | JoinOperator.Left c => JoinOperator.Left (descendJoinConstraint c)
  | JoinOperator.LeftOuter c => JoinOperator.LeftOuter (descendJoinConstraint c)
  | JoinOperator.Right c => JoinOperator.Right (descendJoinConstraint c)
  | JoinOperator.RightOuter c => JoinOperator.RightOuter (descendJoinConstraint c)
  | JoinOperator.FullOuter c => JoinOperator.FullOuter (descendJoinConstraint c)
  | JoinOperator.CrossJoin => JoinOperator.CrossJoin
where
  descendJoinConstraint : JoinConstraint → JoinConstraint
    | JoinConstraint.On e => JoinConstraint.On (visitExpr e)
    | c => c

/-- Descent through ORDER BY entries. -/
def descendOrderBy : Option OrderBy → Option OrderBy
  | some ob =>
      (match ob.kind with
       | OrderByKind.Expressions exprs =>
           some { kind := OrderByKind.Expressions
                    (exprs.map (fun e => { e with expr := visitExpr e.expr })) }
       | k => some { kind := k })
  | none => none

/-- Descent through the limit clause operands. -/
def descendLimitClause : Option LimitClause → Option LimitClause
  | some (LimitClause.LimitOffset limit offset limitBy) =>
      some (LimitClause.LimitOffset
        (limit.map visitExpr)
        (offset.map (fun o => { o with value := visitExpr o.value }))
        (limitBy.map visitExpr))
  | some (LimitClause.OffsetCommaLimit offset limit) =>
      some (LimitClause.OffsetCommaLimit (visitExpr offset) (visitExpr limit))
  | none => none

mutual

/-- Visiting a `Query` node: `pre_visit_query` fires (body-leaf SELECT rules,
ORDER BY rule, limit rule), then the walk descends into the rewritten
children.  Hook and descent are fused per field here: they commute because
the hook is stateless and each rule rewrites a subtree the descent then
enters.  Nested `Query` nodes (derived tables, parenthesized set-operation
operands) meet their own `pre_visit_query` during the descent. -/
def visitQuery : Query → Query
  | Query.mk body orderBy limitClause =>
      Query.mk
        (visitBody body)
        (descendOrderBy (rewriteOrderBy orderBy))
        (descendLimitClause (rewriteLimitClause limitClause))

/-- A query body: the `pre_visit_query` body hook applies `visit_select` to
the body if it is a plain SELECT and to every leaf SELECT of a set-operation
tree (the source expands nested operands with an explicit stack; popping
order is irrelevant because the rewriting is stateless, so the expansion is
the structural recursion below); other body kinds are skipped by the hook.
The descent then enters each leaf, each nested query, and each VALUES row. -/
def visitBody : SetExpr → SetExpr
  | SetExpr.Select s => SetExpr.Select (visitSelect s)
  | SetExpr.Query q => SetExpr.Query (visitQuery q)
  | SetExpr.SetOperation op q l r =>
      SetExpr.SetOperation op q (visitBody l) (visitBody r)
  | SetExpr.Values rows =>
      SetExpr.Values (rows.map (fun row => row.map visitExpr))

/-- A leaf SELECT: `visit_select`'s rules (applied by the enclosing query's
hook), then the generic descent through the rewritten fields.  Fusion of
`descend` after `applySelectRules`, field by field. -/
def visitSelect : Select → Select
  | Select.mk distinct projection from_ selection groupBy =>
      Select.mk
        (descendDistinct (ruleDistinct distinct))
        ((ruleProjection projection).map descendSelectItem)
        (visitFromList from_)
        ((selection.map (fun _ => placeholder_value)).map visitExpr)
        (descendGroupBy (ruleGroupBy groupBy))

/-- The FROM list: per item, the relation is visited and each join gets the
`ON`-collapsing rule (from `visit_select`) followed by the descent. -/
def visitFromList : List TableWithJoins → List TableWithJoins
  | [] => []
  | TableWithJoins.mk relation joins :: rest =>
      TableWithJoins.mk (visitTableFactor relation) (visitJoinList joins)
        :: visitFromList rest

def visitJoinList : List Join → List Join
  | [] => []
  | Join.mk relation op :: rest =>
      Join.mk (visitTableFactor relation)
          (descendJoinOperator (rewriteJoinOperator op))
        :: visitJoinList rest

/-- Visiting a table factor: `pre_visit_table_factor` fires first but only
rewrites `UNNEST` factors, which are outside the fragment, so it is the
identity here; then the walk descends (relation hook on table names,
recursive query visit for derived tables). -/
def visitTableFactor : TableFactor → TableFactor
  | TableFactor.Table name a => TableFactor.Table (visitRelation name) a
  | TableFactor.Derived subquery a => TableFactor.Derived (visitQuery subquery) a

end

/-! ### Statements and the savepoint alias table -/

/-- `sqlparser::ast::Statement` fragment: queries and the three
savepoint-related transaction statements (`Rollback`'s `chain` flag kept,
its other fields dropped). -/
inductive Statement where
  | Query (q : Query)
  | Savepoint (name : Ident)
  | ReleaseSavepoint (name : Ident)
  | Rollback (chain : Bool) (savepoint : Option Ident)

/-- The visitor state `savepoint_ids : HashMap<String, String>`, modelled as
an association list.  Only `len`, `insert` and `get` are used by the source,
and none of them depends on iteration order, so the list model is faithful. -/
abbrev SpMap := List (String × String)

/-- `HashMap::len`. -/
def spLen (m : SpMap) : Nat := m.length

/-- `HashMap::get` (by key). -/
def spGet (m : SpMap) (k : String) : Option String :=
  (m.find? (fun p => p.1 == k)).map (fun p => p.2)

/-- `HashMap::insert`: overwrite the entry of an existing key (the map's
size does not grow), otherwise add a new entry. -/
def spInsert (m : SpMap) (k v : String) : SpMap :=
  if m.any (fun p => p.1 == k) then
    m.map (fun p => if p.1 == k then (k, v) else p)
  else m ++ [(k, v)]

/-- `pre_visit_statement` (lib.rs 135-252) on the fragment, fused with the
descent into an embedded query.  `Savepoint` always assigns the alias
`format!("s{}", savepoint_ids.len() + 1)`, inserts it under the original
name, and rewrites the name; `ReleaseSavepoint` and `Rollback { savepoint }`
rewrite only when a lookup succeeds; plain queries take no statement-level
rule and are visited by the query rules. -/
def applyStatement (st : SpMap) : Statement → SpMap × Statement
  | Statement.Savepoint name =>
      let savepoint_id := "s" ++ Nat.repr (spLen st + 1)
      (spInsert st name.value savepoint_id,
        Statement.Savepoint (Ident.new savepoint_id))
  | Statement.ReleaseSavepoint name =>
      (match spGet st name.value with
       | some savepoint_id => (st, Statement.ReleaseSavepoint (Ident.new savepoint_id))
       | none => (st, Statement.ReleaseSavepoint name))
  | Statement.Rollback chain savepoint =>
      (match savepoint with
       | some name =>
           (match spGet st name.value with
            | some savepoint_id =>
                (st, Statement.Rollback chain (some (Ident.new savepoint_id)))
            | none => (st, Statement.Rollback chain (some name)))
       | none => (st, Statement.Rollback chain none))
  | Statement.Query q => (st, Statement.Query (visitQuery q))

/-- `for stmt in &mut ast { let _ = stmt.visit(&mut visitor); }`: visit each
statement of one parsed input in order, threading the visitor state. -/
def visitAll (st : SpMap) : List Statement → SpMap × List Statement
  | [] => (st, [])
  | s :: rest =>
      let (st', s') := applyStatement st s
      let (st'', rest') := visitAll st' rest
      (st'', s' :: rest')

/-! ### Serialization

`fingerprint_many` renders each rewritten statement with `Display` from the
`sqlparser` crate.  The renderer below models that `Display` implementation
on the embedded fragment; its outputs on the crate's own test inputs coincide
with the expected strings of the test-suite (lib.rs 382-767). -/

/-- `Display` for `Ident`: the value wrapped in its quote character, if any. -/
def Ident.toSql (i : Ident) : String :=
  match i.quoteStyle with
  | none => i.value
  | some q => String.singleton q ++ i.value ++ String.singleton q

/-- `Display` for `Value`. -/
def Value.toSql : Value → String
  | Value.Placeholder s => s
  | Value.Number s => s
  | Value.SingleQuotedString s => "'" ++ s ++ "'"

/-- `Display` for `Expr`. -/
def Expr.toSql : Expr → String
  | Expr.Identifier i => i.toSql
  | Expr.CompoundIdentifier idents =>
      String.intercalate "." (idents.map Ident.toSql)
  | Expr.Value v => v.toSql
  | Expr.BinaryOp l op r => l.toSql ++ " " ++ op ++ " " ++ r.toSql

/-- `Display` for `ObjectName`: dot-joined parts. -/
def objectNameToSql (n : ObjectName) : String :=
  String.intercalate "." (n.map fun part =>
    match part with
    | ObjectNamePart.Identifier i => i.toSql)

/-- `Display` for `SelectItem`. -/
def selectItemToSql : SelectItem → String
  | SelectItem.UnnamedExpr e => e.toSql
  | SelectItem.ExprWithAlias e a => e.toSql ++ " AS " ++ a.toSql
  | SelectItem.Wildcard => "*"

/-- The rendered `ON`/`NATURAL` suffix of a join constraint. -/
def joinConstraintSuffix : JoinConstraint → String
  | JoinConstraint.On e => " ON " ++ e.toSql
  | _ => ""

/-- `Display` for `OrderByExpr`. -/
def orderByExprToSql (e : OrderByExpr) : String :=
  e.expr.toSql
    ++ (match e.options.asc with
        | some true => " ASC"
        | some false => " DESC"
        | none => "")
    ++ (match e.options.nullsFirst with
        | some true => " NULLS FIRST"
        | some false => " NULLS LAST"
        | none => "")

/-- The rendered ORDER BY clause (with leading space), empty when absent. -/
def orderByToSql : Option OrderBy → String
  | some ob =>
      (match ob.kind with
       | OrderByKind.Expressions exprs =>
           " ORDER BY " ++ String.intercalate ", " (exprs.map orderByExprToSql)
       | OrderByKind.All options =>
           " ORDER BY ALL"
             ++ (match options.asc with
                 | some true => " ASC"
                 | some false => " DESC"
                 | none => ""))
  | none => ""

/-- The rendered limit clause (with leading spaces), empty when absent. -/
def limitClauseToSql : Option LimitClause → String
  | some (LimitClause.LimitOffset limit offset limitBy) =>
      (match limit with
       | some e => " LIMIT " ++ e.toSql
       | none => "")
        ++ (if limitBy.isEmpty then ""
            else " BY " ++ String.intercalate ", " (limitBy.map Expr.toSql))
        ++ (match offset with
            | some o =>
                " OFFSET " ++ o.value.toSql
                  ++ (match o.rows with
                      | OffsetRows.None => ""
                      | OffsetRows.Row => " ROW"
                      | OffsetRows.Rows => " ROWS")
            | none => "")
  | some (LimitClause.OffsetCommaLimit offset limit) =>
      " LIMIT " ++ offset.toSql ++ ", " ++ limit.toSql
  | none => ""

mutual

/-- `Display` for `Query`: body, then ORDER BY, then the limit clause. -/
def queryToSql : Query → String
  | Query.mk body orderBy limitClause =>
      bodyToSql body ++ orderByToSql orderBy ++ limitClauseToSql limitClause

/-- `Display` for `SetExpr`. -/
def bodyToSql : SetExpr → String
  | SetExpr.Select s => selectToSql s
  | SetExpr.Query q => "(" ++ queryToSql q ++ ")"
  | SetExpr.SetOperation op q l r =>
      bodyToSql l
        ++ (match op with
            | SetOperator.Union => " UNION"
            | SetOperator.Except => " EXCEPT"
            | SetOperator.Intersect => " INTERSECT")
        ++ (match q with
            | SetQuantifier.All => " ALL"
            | SetQuantifier.None => "")
        ++ " " ++ bodyToSql r
  | SetExpr.Values rows =>
      "VALUES "
        ++ String.intercalate ", "
            (rows.map (fun row =>
              "(" ++ String.intercalate ", " (row.map Expr.toSql) ++ ")"))

/-- `Display` for `Select`. -/
def selectToSql : Select → String
  | Select.mk distinct projection from_ selection groupBy =>
      "SELECT "
        ++ (match distinct with
            | some Distinct.Distinct => "DISTINCT "
            | some (Distinct.On exprs) =>
                "DISTINCT ON ("
                  ++ String.intercalate ", " (exprs.map Expr.toSql) ++ ") "
            | none => "")
        ++ String.intercalate ", " (projection.map selectItemToSql)
        ++ (if from_.isEmpty then ""
            else " FROM " ++ String.intercalate ", " (twjListToSql from_))
        ++ (match selection with
            | some e => " WHERE " ++ e.toSql
            | none => "")
        ++ (match groupBy with
            | GroupByExpr.Expressions exprs =>
                if exprs.isEmpty then ""
                else " GROUP BY " ++ String.intercalate ", " (exprs.map Expr.toSql)
            | GroupByExpr.All => " GROUP BY ALL")

def twjListToSql : List TableWithJoins → List String
  | [] => []
  | TableWithJoins.mk relation joins :: rest =>
      (tableFactorToSql relation ++ joinsToSql joins) :: twjListToSql rest

def joinsToSql : List Join → String
  | [] => ""
  | Join.mk relation op :: rest =>
      (match op with
       | JoinOperator.Join c => " JOIN " ++ tableFactorToSql relation ++ joinConstraintSuffix c
       | JoinOperator.Inner c => " INNER JOIN " ++ tableFactorToSql relation ++ joinConstraintSuffix c
       | JoinOperator.Left c => " LEFT JOIN " ++ tableFactorToSql relation ++ joinConstraintSuffix c
       | JoinOperator.LeftOuter c => " LEFT OUTER JOIN " ++ tableFactorToSql relation ++ joinConstraintSuffix c
       | JoinOperator.Right c => " RIGHT JOIN " ++ tableFactorToSql relation ++ joinConstraintSuffix c
       | JoinOperator.RightOuter c => " RIGHT OUTER JOIN " ++ tableFactorToSql relation ++ joinConstraintSuffix c
       | JoinOperator.FullOuter c => " FULL OUTER JOIN " ++ tableFactorToSql relation ++ joinConstraintSuffix c
       | JoinOperator.CrossJoin => " CROSS JOIN " ++ tableFactorToSql relation)
        ++ joinsToSql rest

def tableFactorToSql : TableFactor → String
  | TableFactor.Table name a =>
      objectNameToSql name
        ++ (match a with
            | some i => " AS " ++ i.toSql
            | none => "")
  | TableFactor.Derived subquery a =>
      "(" ++ queryToSql subquery ++ ")"
        ++ (match a with
            | some i => " AS " ++ i.toSql
            | none => "")

end

/-- `Display` for the `Statement` fragment. -/
def statementToSql : Statement → String
  | Statement.Query q => queryToSql q
  | Statement.Savepoint name => "SAVEPOINT " ++ name.toSql
  | Statement.ReleaseSavepoint name => "RELEASE SAVEPOINT " ++ name.toSql
  | Statement.Rollback chain savepoint =>
      "ROLLBACK"
        ++ (if chain then " AND CHAIN" else "")
        ++ (match savepoint with
            | some name => " TO SAVEPOINT " ++ name.toSql
            | none => "")

/-! ### The batch driver (`fingerprint_many`, lib.rs 42-63)

`Parser::parse_sql(dialect, sql)` is an external collaborator: it is a
parameter `parse` of the driver (the chosen dialect is folded into it), with
`none` standing for `Err(_)`.  One parsed input may hold several statements;
their rewritten forms are re-joined with a single space. -/

/-- The body of the `map` closure of `fingerprint_many` for one input, given
the visitor state accumulated so far: an unparsable input is returned as-is
(and the visitor is not run), a parsed one is visited statement by statement
and re-serialized. -/
def processInput (parse : String → Option (List Statement)) (st : SpMap)
    (sql : String) : SpMap × String :=
  match parse sql with
  | none => (st, sql)
  | some ast =>
      let (st', ast') := visitAll st ast
      (st', String.intercalate " " (ast'.map statementToSql))

/-- The iteration of `fingerprint_many` from a given visitor state. -/
def fingerprintManyFrom (parse : String → Option (List Statement)) :
    SpMap → List String → List String
  | _, [] => []
  | st, sql :: rest =>
      let (st', out) := processInput parse st sql
      out :: fingerprintManyFrom parse st' rest

/-- `fingerprint_many` (lib.rs 42-63): a fresh visitor (empty savepoint
table), then one output per input, in order. -/
def fingerprint_many (parse : String → Option (List Statement))
    (input : List String) : List String :=
  fingerprintManyFrom parse [] input

/-- `fingerprint_one` (lib.rs 26-28). -/
def fingerprint_one (parse : String → Option (List Statement))
    (input : String) : String :=
  String.intercalate " " (fingerprint_many parse [input])

/-! ### Injectivity of `Nat.repr`

Savepoint aliases are `format!("s{}", k)` strings; distinctness of aliases
for distinct counters reduces to injectivity of the decimal rendering of a
natural number, which we establish for `Nat.repr` (the model of `format!`)
via a reference digit function and a digit-value round trip. -/

/-- Reference decimal rendering, most significant digit first. -/
def decDigits (n : Nat) : List Char :=
  if _ : n < 10 then [Nat.digitChar n]
  else decDigits (n / 10) ++ [Nat.digitChar (n % 10)]
decreasing_by exact Nat.div_lt_self (by omega) (by omega)

/-- Numeric value of a decimal digit character. -/
def digitVal (c : Char) : Nat := c.toNat - '0'.toNat

/-- Numeric value of a most-significant-first digit string. -/
def digitsVal (l : List Char) : Nat :=
  l.foldl (fun acc c => acc * 10 + digitVal c) 0

theorem digitsVal_append (l : List Char) (c : Char) :
    digitsVal (l ++ [c]) = digitsVal l * 10 + digitVal c := by
  simp [digitsVal, List.foldl_append]

theorem digitVal_digitChar : ∀ d : Nat, d < 10 → digitVal (Nat.digitChar d) = d := by
  decide

theorem digitsVal_decDigits : ∀ n : Nat, digitsVal (decDigits n) = n := by
  intro n
  induction n using Nat.strong_induction_on with
  | _ n ih =>
    rw [decDigits]
    by_cases h : n < 10
    · simp only [h, dite_true]
      simpa [digitsVal] using digitVal_digitChar n h
    · simp only [h, dite_false]
      rw [digitsVal_append, ih (n / 10) (Nat.div_lt_self (by omega) (by omega)),
        digitVal_digitChar (n % 10) (Nat.mod_lt n (by omega))]
      omega

theorem decDigits_injective {m n : Nat} (h : decDigits m = decDigits n) : m = n := by
  have := digitsVal_decDigits m
  rw [h, digitsVal_decDigits] at this
  omega

theorem toDigitsCore_eq_decDigits :
    ∀ n fuel ds, n < fuel →
      Nat.toDigitsCore 10 fuel n ds = decDigits n ++ ds := by
  intro n
  induction n using Nat.strong_induction_on with
  | _ n ih =>
    intro fuel ds hfuel
    match fuel with
    | f + 1 =>
      rw [decDigits]
      by_cases h : n < 10
      · have hdiv : n / 10 = 0 := Nat.div_eq_of_lt h
        have hmod : n % 10 = n := Nat.mod_eq_of_lt h
        simp [Nat.toDigitsCore, hdiv, hmod, h]
      · have hdiv : ¬ n / 10 = 0 := by
          intro h0
          exact h (by omega : n < 10)
        have hd10 : n / 10 < n := Nat.div_lt_self (by omega) (by omega)
        simp only [Nat.toDigitsCore, hdiv, if_false, h, dite_false]
        rw [ih (n / 10) hd10 f (Nat.digitChar (n % 10) :: ds) (by omega)]
        simp

theorem repr_eq_decDigits (n : Nat) : Nat.repr n = (decDigits n).asString := by
  rw [Nat.repr, Nat.toDigits, toDigitsCore_eq_decDigits n (n + 1) [] (by omega)]
  simp

theorem repr_injective {m n : Nat} (h : Nat.repr m = Nat.repr n) : m = n := by
  rw [repr_eq_decDigits, repr_eq_decDigits] at h
  have hdata := congrArg String.data h
  simp only [List.asString] at hdata
  exact decDigits_injective hdata

/-- The alias string for a table of `k` entries: `format!("s{}", k + 1)`. -/
def spAlias (k : Nat) : String := "s" ++ Nat.repr (k + 1)

theorem spAlias_injective {m n : Nat} (h : spAlias m = spAlias n) : m = n := by
  have hdata : ("s" ++ Nat.repr (m + 1)).data = ("s" ++ Nat.repr (n + 1)).data := by
    rw [show ("s" ++ Nat.repr (m + 1) : String) = spAlias m from rfl,
      show ("s" ++ Nat.repr (n + 1) : String) = spAlias n from rfl, h]
  have : Nat.repr (m + 1) = Nat.repr (n + 1) := by
    apply String.ext
    simpa [String.data_append] using hdata
  have := repr_injective this
  omega

/-! ### Helper lemmas: batch state and the alias table -/

/-- The visitor state after a prefix of the batch has been processed. -/
def batchState (parse : String → Option (List Statement)) :
    SpMap → List String → SpMap
  | st, [] => st
  | st, sql :: rest => batchState parse (processInput parse st sql).1 rest

/-- The key list of the alias table. -/
def spKeys (m : SpMap) : List String := m.map (fun p => p.1)

theorem spAny_eq_true_iff (m : SpMap) (k : String) :
    (m.any (fun p => p.1 == k)) = true ↔ k ∈ spKeys m := by
  simp [spKeys, List.any_eq_true, List.mem_map]

theorem spInsert_of_not_mem {m : SpMap} {k : String} (v : String)
    (h : k ∉ spKeys m) : spInsert m k v = m ++ [(k, v)] := by
  have : (m.any (fun p => p.1 == k)) = false := by
    rw [Bool.eq_false_iff]
    intro hc
    exact h ((spAny_eq_true_iff m k).mp hc)
  simp [spInsert, this]

theorem spLen_insert_of_mem {m : SpMap} {k : String} (v : String)
    (h : k ∈ spKeys m) : spLen (spInsert m k v) = spLen m := by
  rw [spInsert, if_pos ((spAny_eq_true_iff m k).mpr h)]
  simp [spLen]

theorem spGet_eq_some {m : SpMap} {k a : String} (h : spGet m k = some a) :
    (k, a) ∈ m := by
  rw [spGet] at h
  match hf : m.find? (fun p => p.1 == k) with
  | none => rw [hf] at h; simp at h
  | some p =>
      rw [hf] at h
      have h : p.2 = a := by simpa using h
      have hp1 : p.1 = k := by
        have := List.find?_some hf
        simpa using this
      have hmem := List.mem_of_find?_eq_some hf
      have : p = (k, a) := by
        cases p
        simp_all
      rw [this] at hmem
      exact hmem

theorem fingerprintManyFrom_length (parse : String → Option (List Statement)) :
    ∀ (l : List String) (st : SpMap),
      (fingerprintManyFrom parse st l).length = l.length := by
  intro l
  induction l with
  | nil => intro st; rfl
  | cons sql rest ih =>
      intro st
      simp [fingerprintManyFrom, ih]

theorem fingerprintManyFrom_getElem (parse : String → Option (List Statement)) :
    ∀ (l : List String) (st : SpMap) (i : Nat),
      (fingerprintManyFrom parse st l)[i]? =
        (l[i]?).map (fun sql =>
          (processInput parse (batchState parse st (l.take i)) sql).2) := by
  intro l
  induction l with
  | nil => intro st i; simp [fingerprintManyFrom]
  | cons sql rest ih =>
      intro st i
      match i with
      | 0 => simp [fingerprintManyFrom, batchState]
      | i + 1 =>
          simp only [fingerprintManyFrom, List.getElem?_cons_succ, List.take_succ_cons]
          rw [ih]
          rfl

theorem fingerprintManyFrom_append (parse : String → Option (List Statement)) :
    ∀ (xs : List String) (st : SpMap) (l : List String),
      fingerprintManyFrom parse st (xs ++ l) =
        fingerprintManyFrom parse st xs
          ++ fingerprintManyFrom parse (batchState parse st xs) l := by
  intro xs
  induction xs with
  | nil => intro st l; simp [fingerprintManyFrom, batchState]
  | cons sql rest ih =>
      intro st l
      simp only [List.cons_append, fingerprintManyFrom, batchState, List.append_eq]
      rw [ih]

/-- C1.  `fingerprint_many` returns one output per input, in input order:
the output list has the input list's length, and the entry at every
position `i` is the fingerprint of the input at position `i` (computed by
`processInput` from the savepoint state accumulated over the first `i`
inputs — the state the batch threads through in input order).  `parse`
models `Parser::parse_sql` with the chosen (or default) dialect folded in,
so the statement covers every dialect selection. -/
theorem fingerprint_many_ordered (parse : String → Option (List Statement))
    (input : List String) :
    (fingerprint_many parse input).length = input.length ∧
    ∀ i : Nat,
      (fingerprint_many parse input)[i]? =
        (input[i]?).map (fun sql =>
          (processInput parse (batchState parse [] (input.take i)) sql).2) := by
  refine ⟨fingerprintManyFrom_length parse input [], fun i => ?_⟩
  exact fingerprintManyFrom_getElem parse input [] i

/-- C2.  A failing parse is local: on an unparsable input the per-input step
returns the original string byte-for-byte and leaves the savepoint state
untouched (the visitor is not run — `processInput` never reaches
`visitAll`), and inserting the failing input anywhere in a batch inserts
exactly that string into the output list, leaving every other output
exactly as in the batch without it. -/
theorem parse_failure_is_local (parse : String → Option (List Statement))
    (xs ys : List String) (bad : String) (h : parse bad = none) :
    (∀ st : SpMap, processInput parse st bad = (st, bad)) ∧
    fingerprint_many parse (xs ++ bad :: ys) =
      (fingerprint_many parse (xs ++ ys)).take xs.length
        ++ bad :: (fingerprint_many parse (xs ++ ys)).drop xs.length := by
  constructor
  · intro st
    simp [processInput, h]
  · have e1 : fingerprint_many parse (xs ++ bad :: ys) =
        fingerprintManyFrom parse [] xs
          ++ bad :: fingerprintManyFrom parse (batchState parse [] xs) ys := by
      rw [fingerprint_many, fingerprintManyFrom_append]
      congr 1
      simp [fingerprintManyFrom, processInput, h]
    have e2 : fingerprint_many parse (xs ++ ys) =
        fingerprintManyFrom parse [] xs
          ++ fingerprintManyFrom parse (batchState parse [] xs) ys := by
      rw [fingerprint_many, fingerprintManyFrom_append]
    have hlen : (fingerprintManyFrom parse ([] : SpMap) xs).length = xs.length :=
      fingerprintManyFrom_length parse xs []
    rw [e1, e2, ← hlen, List.take_left, List.drop_left]

/-- Witness for C2 at a concrete batch: with a parser that rejects
everything, inserting `"b"` between `"a"` and `"c"` returns it verbatim in
place. -/
theorem parse_failure_is_local_witness :
    (∀ st : SpMap, processInput (fun _ => none) st "b" = (st, "b")) ∧
    fingerprint_many (fun _ => none) (["a"] ++ "b" :: ["c"]) =
      (fingerprint_many (fun _ => none) (["a"] ++ ["c"])).take ["a"].length
        ++ "b" :: (fingerprint_many (fun _ => none) (["a"] ++ ["c"])).drop ["a"].length :=
  parse_failure_is_local (fun _ => none) ["a"] ["c"] "b" rfl

/-! ### Savepoint aliasing -/

/-- Counterexample to C3.  The batch `SAVEPOINT "s1234"; SAVEPOINT "s1234"`
(the crate's own `test_duplicate_savepoints`) rewrites the second
declaration of the *same* name to `s2`, not to the alias `s1` assigned at
its first occurrence: `HashMap::insert` overwrites, and the alias is always
minted fresh from the current table size. -/
theorem savepoint_reuse_counterexample :
    (visitAll [] [Statement.Savepoint ⟨"s1234", some '"'⟩,
                  Statement.Savepoint ⟨"s1234", some '"'⟩]).2 =
      [Statement.Savepoint (Ident.new "s1"),
       Statement.Savepoint (Ident.new "s2")] ∧
    Ident.new "s2" ≠ Ident.new "s1" := by
  exact ⟨rfl, by decide⟩

/-- C3 (amended).  A `SAVEPOINT` statement that re-declares a name already
declared earlier in the batch is rewritten to the *fresh* alias
`s{table size + 1}` — a different alias string than the one assigned at the
first occurrence — rather than reusing the existing alias. -/
theorem savepoint_redeclare_fresh (st : SpMap) (name : Ident)
    (h : name.value ∉ spKeys st) :
    (applyStatement st (Statement.Savepoint name)).2
        = Statement.Savepoint (Ident.new (spAlias (spLen st))) ∧
    (applyStatement (applyStatement st (Statement.Savepoint name)).1
        (Statement.Savepoint name)).2
        = Statement.Savepoint (Ident.new (spAlias (spLen st + 1))) ∧
    spAlias (spLen st + 1) ≠ spAlias (spLen st) := by
  refine ⟨rfl, ?_, fun hc => by have := spAlias_injective hc; omega⟩
  have hfresh := spInsert_of_not_mem (spAlias (spLen st)) h
  show (applyStatement (spInsert st name.value (spAlias (spLen st)))
      (Statement.Savepoint name)).2 = _
  rw [hfresh]
  simp [applyStatement, spLen, spAlias]

/-- Witness for C3's amended theorem at a concrete state. -/
theorem savepoint_redeclare_fresh_witness :
    (applyStatement [] (Statement.Savepoint ⟨"s1234", some '"'⟩)).2
        = Statement.Savepoint (Ident.new (spAlias (spLen ([] : SpMap)))) ∧
    (applyStatement (applyStatement [] (Statement.Savepoint ⟨"s1234", some '"'⟩)).1
        (Statement.Savepoint ⟨"s1234", some '"'⟩)).2
        = Statement.Savepoint (Ident.new (spAlias (spLen ([] : SpMap) + 1))) ∧
    spAlias (spLen ([] : SpMap) + 1) ≠ spAlias (spLen ([] : SpMap)) :=
  savepoint_redeclare_fresh [] ⟨"s1234", some '"'⟩ (by simp [spKeys])

/-- C9.  A `RELEASE SAVEPOINT` or `ROLLBACK TO SAVEPOINT` whose name has no
entry in the alias table is left completely unrewritten, and the state is
unchanged; the functions are total, so no error is raised or reported. -/
theorem unknown_savepoint_unrewritten (st : SpMap) (name : Ident) (chain : Bool)
    (h : spGet st name.value = none) :
    applyStatement st (Statement.ReleaseSavepoint name)
        = (st, Statement.ReleaseSavepoint name) ∧
    applyStatement st (Statement.Rollback chain (some name))
        = (st, Statement.Rollback chain (some name)) := by
  constructor
  · simp [applyStatement, h]
  · simp [applyStatement, h]

/-- Witness for C9 at an empty table. -/
theorem unknown_savepoint_unrewritten_witness :
    applyStatement [] (Statement.ReleaseSavepoint ⟨"x", none⟩)
        = ([], Statement.ReleaseSavepoint ⟨"x", none⟩) ∧
    applyStatement [] (Statement.Rollback false (some ⟨"x", none⟩))
        = ([], Statement.Rollback false (some ⟨"x", none⟩)) :=
  unknown_savepoint_unrewritten [] ⟨"x", none⟩ false rfl

/-- C10.  A visited `SAVEPOINT` is rewritten to `s{table size + 1}`
(`spAlias (spLen st)`); when its name is already in the table, the insert
overwrites the entry without growing the table, so the size counter does not
advance, and *any* name declared next receives the very same alias text the
duplicate re-declaration just received. -/
theorem savepoint_alias_counter (st : SpMap) (name other : Ident)
    (h : name.value ∈ spKeys st) :
    (applyStatement st (Statement.Savepoint name)).2
        = Statement.Savepoint (Ident.new (spAlias (spLen st))) ∧
    spLen (applyStatement st (Statement.Savepoint name)).1 = spLen st ∧
    (applyStatement (applyStatement st (Statement.Savepoint name)).1
        (Statement.Savepoint other)).2
        = Statement.Savepoint (Ident.new (spAlias (spLen st))) := by
  have hlen : spLen (spInsert st name.value (spAlias (spLen st))) = spLen st :=
    spLen_insert_of_mem _ h
  refine ⟨rfl, hlen, ?_⟩
  show (applyStatement (spInsert st name.value (spAlias (spLen st)))
      (Statement.Savepoint other)).2 = _
  simp only [applyStatement, spAlias] at hlen ⊢
  rw [hlen]

/-- Witness for C10: with the table `{x ↦ s1}` (size 1), re-declaring `x`
yields `s2`, keeps size 1, and the next name `y` also gets `s2`. -/
theorem savepoint_alias_counter_witness :
    (applyStatement [("x", "s1")] (Statement.Savepoint ⟨"x", none⟩)).2
        = Statement.Savepoint (Ident.new (spAlias (spLen [("x", "s1")]))) ∧
    spLen (applyStatement [("x", "s1")] (Statement.Savepoint ⟨"x", none⟩)).1
        = spLen [("x", "s1")] ∧
    (applyStatement (applyStatement [("x", "s1")] (Statement.Savepoint ⟨"x", none⟩)).1
        (Statement.Savepoint ⟨"y", none⟩)).2
        = Statement.Savepoint (Ident.new (spAlias (spLen [("x", "s1")]))) :=
  savepoint_alias_counter [("x", "s1")] ⟨"x", none⟩ ⟨"y", none⟩ (by simp [spKeys])

/-- Counterexample to C4.  In the batch
`SAVEPOINT a; SAVEPOINT a; SAVEPOINT b` the re-declaration of `a` is
rewritten to `s2` without growing the table, so the *different* name `b` is
also rewritten to `s2`: two distinct original names receive the same alias
string within one batch. -/
theorem savepoint_alias_collision :
    (visitAll [] [Statement.Savepoint ⟨"a", none⟩,
                  Statement.Savepoint ⟨"a", none⟩,
                  Statement.Savepoint ⟨"b", none⟩]).2 =
      [Statement.Savepoint (Ident.new "s1"),
       Statement.Savepoint (Ident.new "s2"),
       Statement.Savepoint (Ident.new "s2")] ∧
    ("a" : String) ≠ "b" := by
  exact ⟨rfl, by decide⟩

/-- The savepoint names declared (by `SAVEPOINT` statements) in a statement
list, in order. -/
def declaredNames : List Statement → List String
  | [] => []
  | Statement.Savepoint name :: rest => name.value :: declaredNames rest
  | _ :: rest => declaredNames rest

/-- The alias table is in canonical shape: its values are, in insertion
order, exactly the aliases for table sizes `0, 1, …`. -/
def spValuesCanonical (m : SpMap) : Prop :=
  m.map (fun p => p.2) = (List.range m.length).map spAlias

theorem applyStatement_fst (st : SpMap) (s : Statement) :
    (applyStatement st s).1 =
      match s with
      | Statement.Savepoint name => spInsert st name.value (spAlias (spLen st))
      | _ => st := by
  cases s with
  | Savepoint name => rfl
  | ReleaseSavepoint name =>
      cases hg : spGet st name.value <;> simp [applyStatement, hg]
  | Rollback chain savepoint =>
      cases savepoint with
      | none => rfl
      | some name => cases hg : spGet st name.value <;> simp [applyStatement, hg]
  | Query q => rfl

theorem visitAll_canonical :
    ∀ (stmts : List Statement) (m : SpMap),
      (spKeys m ++ declaredNames stmts).Nodup → spValuesCanonical m →
      spValuesCanonical (visitAll m stmts).1 := by
  intro stmts
  induction stmts with
  | nil => intro m _ hc; exact hc
  | cons s rest ih =>
      intro m hnd hc
      have hv : (visitAll m (s :: rest)).1 = (visitAll (applyStatement m s).1 rest).1 := rfl
      cases s with
      | Savepoint name =>
          have hdecl : declaredNames (Statement.Savepoint name :: rest)
              = name.value :: declaredNames rest := rfl
          rw [hdecl] at hnd
          have hnotin : name.value ∉ spKeys m := by
            intro hmem
            exact (List.disjoint_of_nodup_append hnd) hmem (by simp)
          have hins : (applyStatement m (Statement.Savepoint name)).1
              = m ++ [(name.value, spAlias (spLen m))] := by
            show spInsert m name.value (spAlias (spLen m)) = _
            exact spInsert_of_not_mem _ hnotin
          rw [hv, hins]
          apply ih
          · have hkeys : spKeys (m ++ [(name.value, spAlias (spLen m))])
                = spKeys m ++ [name.value] := by simp [spKeys]
            rw [hkeys, List.append_assoc]
            exact hnd
          · unfold spValuesCanonical at hc ⊢
            simp only [List.map_append, List.length_append, List.map_cons,
              List.map_nil, List.length_cons, List.length_nil]
            rw [hc]
            simp [List.range_succ, spLen]
      | ReleaseSavepoint name =>
          have hfst : (applyStatement m (Statement.ReleaseSavepoint name)).1 = m := by
            rw [applyStatement_fst]
          rw [hv, hfst]
          exact ih m hnd hc
      | Rollback chain savepoint =>
          have hfst : (applyStatement m (Statement.Rollback chain savepoint)).1 = m := by
            rw [applyStatement_fst]
          rw [hv, hfst]
          exact ih m hnd hc
      | Query q =>
          have hfst : (applyStatement m (Statement.Query q)).1 = m := by
            rw [applyStatement_fst]
          rw [hv, hfst]
          exact ih m hnd hc

/-- C4 (amended).  Provided no savepoint name is declared more than once in
the batch, the alias table maps distinct original names to distinct alias
strings: two lookups for different names never return the same alias.  (The
amendment is forced by `savepoint_alias_collision`: after a *duplicate*
declaration the very next distinct name receives an already-used alias.)
Applied to any prefix of a batch, this covers every intermediate table of a
`fingerprint_many` call over declarations without duplicates. -/
theorem savepoint_aliases_distinct_of_nodup (stmts : List Statement)
    (k1 k2 a1 a2 : String)
    (h0 : (declaredNames stmts).Nodup) (hne : k1 ≠ k2)
    (h1 : spGet (visitAll [] stmts).1 k1 = some a1)
    (h2 : spGet (visitAll [] stmts).1 k2 = some a2) : a1 ≠ a2 := by
  intro hEq
  subst hEq
  have hcanon : spValuesCanonical (visitAll [] stmts).1 :=
    visitAll_canonical stmts [] (by simpa [spKeys] using h0) rfl
  have hnodupvals : ((visitAll [] stmts).1.map (fun p => p.2)).Nodup := by
    rw [hcanon]
    exact List.Nodup.map (fun a b hab => spAlias_injective hab) (List.nodup_range _)
  have hm1 := spGet_eq_some h1
  have hm2 := spGet_eq_some h2
  have hpair := List.inj_on_of_nodup_map hnodupvals hm1 hm2 rfl
  exact hne (congrArg Prod.fst hpair)

/-- Witness for C4's amended theorem: the duplicate-free batch
`SAVEPOINT x; SAVEPOINT y` yields the table `{x ↦ s1, y ↦ s2}` with
distinct aliases. -/
theorem savepoint_aliases_distinct_witness : ("s1" : String) ≠ "s2" :=
  savepoint_aliases_distinct_of_nodup
    [Statement.Savepoint ⟨"x", none⟩, Statement.Savepoint ⟨"y", none⟩]
    "x" "y" "s1" "s2" (by decide) (by decide) rfl rfl

/-! ### Identifier unquoting, projection and ORDER BY collapsing -/

/-- C5.  For every alphanumeric classifier `alnum` — Rust's
`char::is_alphanumeric` is external Unicode-table standard-library code, so
the property is proved for an arbitrary classifier and holds in particular
for the library's — `maybe_unquote_ident` preserves the identifier's text
and removes its quoting marker exactly when every character of the text is
alphanumeric or an underscore, keeping the parser's quoting otherwise; the
normalization pass applies it to every bare identifier expression, to every
member of a compound identifier, and to every identifier part of a relation
name.  The last two conjuncts tie the generic pass to the executable model:
instantiated at the ASCII classifier it is literally the file's `visitExpr`
/ `visitRelation`. -/
theorem ident_unquote_iff (alnum : Char → Bool) (i : Ident) (parts : List Ident) :
    (maybe_unquote_ident_with alnum i).value = i.value ∧
    (maybe_unquote_ident_with alnum i).quoteStyle
        = (if i.value.all (isWordCharWith alnum) then none else i.quoteStyle) ∧
    visitExprWith alnum (Expr.Identifier i)
        = Expr.Identifier (maybe_unquote_ident_with alnum i) ∧
    visitExprWith alnum (Expr.CompoundIdentifier parts)
        = Expr.CompoundIdentifier (parts.map (maybe_unquote_ident_with alnum)) ∧
    visitRelationWith alnum (parts.map ObjectNamePart.Identifier)
        = parts.map (fun p => ObjectNamePart.Identifier (maybe_unquote_ident_with alnum p)) ∧
    (∀ e : Expr, visitExprWith Char.isAlphanum e = visitExpr e) ∧
    visitRelationWith Char.isAlphanum = visitRelation := by
  refine ⟨?_, ?_, rfl, rfl, ?_, ?_, ?_⟩
  · by_cases h : i.value.all (isWordCharWith alnum) <;>
      simp [maybe_unquote_ident_with, h]
  · by_cases h : i.value.all (isWordCharWith alnum) <;>
      simp [maybe_unquote_ident_with, h]
  · simp [visitRelationWith]
  · intro e
    induction e with
    | Identifier ident => rfl
    | CompoundIdentifier idents => rfl
    | Value v => rfl
    | BinaryOp l op r ihl ihr => simp [visitExprWith, visitExpr, ihl, ihr]
  · funext relation
    rfl

/-- C6.  The projection rule of `visit_select`: an empty projection list is
left empty; a leading plain expression or aliased expression becomes the
single unnamed placeholder item and the rest is discarded; a leading item of
any other kind (wildcard) is kept as-is and the list is still truncated to
that one item. -/
theorem select_projection_collapsed (d : Option Distinct)
    (f : List TableWithJoins) (sel : Option Expr) (g : GroupByExpr)
    (e : Expr) (a : Ident) (rest : List SelectItem) :
    (applySelectRules (Select.mk d [] f sel g)).projection = [] ∧
    (applySelectRules (Select.mk d (SelectItem.UnnamedExpr e :: rest) f sel g)).projection
        = [SelectItem.UnnamedExpr placeholder_value] ∧
    (applySelectRules (Select.mk d (SelectItem.ExprWithAlias e a :: rest) f sel g)).projection
        = [SelectItem.UnnamedExpr placeholder_value] ∧
    (applySelectRules (Select.mk d (SelectItem.Wildcard :: rest) f sel g)).projection
        = [SelectItem.Wildcard] := by
  exact ⟨rfl, rfl, rfl, rfl⟩

/-- C7.  For a visited query whose ORDER BY is an explicit non-empty
expression list, the first entry's expression becomes a placeholder, that
entry's ASC/DESC and NULLS options are kept, and the list is truncated to
that entry; an empty expression list, an `ORDER BY ALL`, and an absent
ORDER BY are left unchanged. -/
theorem order_by_truncated (b : SetExpr) (lc : Option LimitClause)
    (e : OrderByExpr) (rest : List OrderByExpr) (opts : OrderByOptions) :
    (visitQuery (Query.mk b (some ⟨OrderByKind.Expressions (e :: rest)⟩) lc)).orderBy
        = some ⟨OrderByKind.Expressions [⟨placeholder_value, e.options⟩]⟩ ∧
    (visitQuery (Query.mk b (some ⟨OrderByKind.Expressions []⟩) lc)).orderBy
        = some ⟨OrderByKind.Expressions []⟩ ∧
    (visitQuery (Query.mk b (some ⟨OrderByKind.All opts⟩) lc)).orderBy
        = some ⟨OrderByKind.All opts⟩ ∧
    (visitQuery (Query.mk b none lc)).orderBy = none := by
  obtain ⟨ee, eo⟩ := e
  refine ⟨?_, ?_, ?_, ?_⟩ <;>
    simp [visitQuery, rewriteOrderBy, descendOrderBy, visitExpr,
      Query.orderBy, placeholder_value]

/-! ### Literal-insensitivity

"Two statements differ only in the literal values appearing in WHERE
predicates and LIMIT/OFFSET operands" is formalized as equality after
*scrubbing*: `scrubStatement` erases every literal `Value` node inside a
`selection` (WHERE) expression and inside limit-clause operands — at every
query nesting depth — to one fixed marker, and leaves everything else
(including VALUES rows) intact.  Two statements are related exactly when
their scrubs are equal. -/

/-- Erase every literal value node inside an expression. -/
def scrubLits : Expr → Expr
  | Expr.Value _ => Expr.Value (Value.Placeholder "#lit")
  | Expr.BinaryOp l op r => Expr.BinaryOp (scrubLits l) op (scrubLits r)
  | e => e

/-- Erase the literals of the operands of a limit clause. -/
def scrubLimitClause : Option LimitClause → Option LimitClause
  | some (LimitClause.LimitOffset limit offset limitBy) =>
      some (LimitClause.LimitOffset (limit.map scrubLits)
        (offset.map (fun o => { o with value := scrubLits o.value }))
        (limitBy.map scrubLits))
  | some (LimitClause.OffsetCommaLimit offset limit) =>
      some (LimitClause.OffsetCommaLimit (scrubLits offset) (scrubLits limit))
  | none => none

mutual

def scrubQuery : Query → Query
  | Query.mk body orderBy limitClause =>
      Query.mk (scrubSetExpr body) orderBy (scrubLimitClause limitClause)

def scrubSetExpr : SetExpr → SetExpr
  | SetExpr.Select s => SetExpr.Select (scrubSelect s)
  | SetExpr.Query q => SetExpr.Query (scrubQuery q)
  | SetExpr.SetOperation op q l r =>
      SetExpr.SetOperation op q (scrubSetExpr l) (scrubSetExpr r)
  | SetExpr.Values rows => SetExpr.Values rows

def scrubSelect : Select → Select
  | Select.mk distinct projection from_ selection groupBy =>
      Select.mk distinct projection (scrubTWJList from_)
        (selection.map scrubLits) groupBy

def scrubTWJList : List TableWithJoins → List TableWithJoins
  | [] => []
  | TableWithJoins.mk relation joins :: rest =>
      TableWithJoins.mk (scrubTableFactor relation) (scrubJoinList joins)
        :: scrubTWJList rest

def scrubJoinList : List Join → List Join
  | [] => []
  | Join.mk relation op :: rest =>
      Join.mk (scrubTableFactor relation) op :: scrubJoinList rest

def scrubTableFactor : TableFactor → TableFactor
  | TableFactor.Table name a => TableFactor.Table name a
  | TableFactor.Derived subquery a => TableFactor.Derived (scrubQuery subquery) a

end

def scrubStatement : Statement → Statement
  | Statement.Query q => Statement.Query (scrubQuery q)
  | s => s

theorem rewriteLimitClause_scrub (lc : Option LimitClause) :
    rewriteLimitClause (scrubLimitClause lc) = rewriteLimitClause lc := by
  match lc with
  | none => rfl
  | some (LimitClause.OffsetCommaLimit o l) => rfl
  | some (LimitClause.LimitOffset limit offset limitBy) =>
      cases limit <;> cases offset <;> cases limitBy <;>
        simp [scrubLimitClause, rewriteLimitClause]

mutual

theorem visitQuery_scrub : ∀ q : Query, visitQuery (scrubQuery q) = visitQuery q
  | Query.mk body orderBy limitClause => by
      simp only [scrubQuery, visitQuery]
      rw [visitBody_scrub body, rewriteLimitClause_scrub limitClause]

theorem visitBody_scrub : ∀ b : SetExpr, visitBody (scrubSetExpr b) = visitBody b
  | SetExpr.Select s => by
      simp only [scrubSetExpr, visitBody]
      rw [visitSelect_scrub s]
  | SetExpr.Query q => by
      simp only [scrubSetExpr, visitBody]
      rw [visitQuery_scrub q]
  | SetExpr.SetOperation op q l r => by
      simp only [scrubSetExpr, visitBody]
      rw [visitBody_scrub l, visitBody_scrub r]
  | SetExpr.Values rows => by
      simp only [scrubSetExpr]

theorem visitSelect_scrub : ∀ s : Select, visitSelect (scrubSelect s) = visitSelect s
  | Select.mk distinct projection from_ selection groupBy => by
      simp only [scrubSelect, visitSelect]
      rw [visitFromList_scrub from_]
      cases selection <;> rfl

theorem visitFromList_scrub :
    ∀ l : List TableWithJoins, visitFromList (scrubTWJList l) = visitFromList l
  | [] => rfl
  | TableWithJoins.mk relation joins :: rest => by
      simp only [scrubTWJList, visitFromList]
      rw [visitTableFactor_scrub relation, visitJoinList_scrub joins,
        visitFromList_scrub rest]

theorem visitJoinList_scrub :
    ∀ l : List Join, visitJoinList (scrubJoinList l) = visitJoinList l
  | [] => rfl
  | Join.mk relation op :: rest => by
      simp only [scrubJoinList, visitJoinList]
      rw [visitTableFactor_scrub relation, visitJoinList_scrub rest]

theorem visitTableFactor_scrub :
    ∀ tf : TableFactor, visitTableFactor (scrubTableFactor tf) = visitTableFactor tf
  | TableFactor.Table name a => rfl
  | TableFactor.Derived subquery a => by
      simp only [scrubTableFactor, visitTableFactor]
      rw [visitQuery_scrub subquery]

end

/-- C8 (amended).  Two statements that differ only in the literal values
inside WHERE predicates and LIMIT/OFFSET operands (scrub-equal statements)
are fingerprinted identically: the visitor output trees and hence the
rendered output strings coincide, for any savepoint state.  (The amendment
drops "VALUES rows" from the claim, as forced by
`values_literal_sensitivity`.) -/
theorem literal_insensitive (s1 s2 : Statement) (st : SpMap)
    (h : scrubStatement s1 = scrubStatement s2) :
    applyStatement st s1 = applyStatement st s2 ∧
    statementToSql (applyStatement st s1).2 = statementToSql (applyStatement st s2).2 := by
  have key : applyStatement st s1 = applyStatement st s2 := by
    cases s1 <;> cases s2 <;> simp only [scrubStatement] at h <;> try exact h ▸ rfl
    case Query.Query q1 q2 =>
      have hq : scrubQuery q1 = scrubQuery q2 := by
        injection h
      have : visitQuery q1 = visitQuery q2 := by
        rw [← visitQuery_scrub q1, hq, visitQuery_scrub q2]
      simp [applyStatement, this]
    all_goals cases h
  exact ⟨key, by rw [key]⟩

/-- Witness for C8's amended theorem: `SELECT a FROM t WHERE a = 1 LIMIT 2`
versus `SELECT a FROM t WHERE a = 3 LIMIT 4` scrub to the same tree and
fingerprint to equal outputs. -/
theorem literal_insensitive_witness :
    applyStatement []
        (Statement.Query (Query.mk
          (SetExpr.Select (Select.mk none
            [SelectItem.UnnamedExpr (Expr.Identifier (Ident.new "a"))]
            [TableWithJoins.mk
              (TableFactor.Table [ObjectNamePart.Identifier (Ident.new "t")] none) []]
            (some (Expr.BinaryOp (Expr.Identifier (Ident.new "a")) "="
              (Expr.Value (Value.Number "1"))))
            (GroupByExpr.Expressions []))) none
          (some (LimitClause.LimitOffset (some (Expr.Value (Value.Number "2"))) none []))))
      = applyStatement []
        (Statement.Query (Query.mk
          (SetExpr.Select (Select.mk none
            [SelectItem.UnnamedExpr (Expr.Identifier (Ident.new "a"))]
            [TableWithJoins.mk
              (TableFactor.Table [ObjectNamePart.Identifier (Ident.new "t")] none) []]
            (some (Expr.BinaryOp (Expr.Identifier (Ident.new "a")) "="
              (Expr.Value (Value.Number "3"))))
            (GroupByExpr.Expressions []))) none
          (some (LimitClause.LimitOffset (some (Expr.Value (Value.Number "4"))) none [])))) ∧
    statementToSql (applyStatement []
        (Statement.Query (Query.mk
          (SetExpr.Select (Select.mk none
            [SelectItem.UnnamedExpr (Expr.Identifier (Ident.new "a"))]
            [TableWithJoins.mk
              (TableFactor.Table [ObjectNamePart.Identifier (Ident.new "t")] none) []]
            (some (Expr.BinaryOp (Expr.Identifier (Ident.new "a")) "="
              (Expr.Value (Value.Number "1"))))
            (GroupByExpr.Expressions []))) none
          (some (LimitClause.LimitOffset (some (Expr.Value (Value.Number "2"))) none []))))).2
      = statementToSql (applyStatement []
        (Statement.Query (Query.mk
          (SetExpr.Select (Select.mk none
            [SelectItem.UnnamedExpr (Expr.Identifier (Ident.new "a"))]
            [TableWithJoins.mk
              (TableFactor.Table [ObjectNamePart.Identifier (Ident.new "t")] none) []]
            (some (Expr.BinaryOp (Expr.Identifier (Ident.new "a")) "="
              (Expr.Value (Value.Number "3"))))
            (GroupByExpr.Expressions []))) none
          (some (LimitClause.LimitOffset (some (Expr.Value (Value.Number "4"))) none []))))).2 :=
  literal_insensitive _ _ [] rfl

/-- Counterexample to C8.  The two SELECT statements
`SELECT * FROM (VALUES (1))` and `SELECT * FROM (VALUES (2))` differ only in
the literal inside a VALUES row (the statements below are the same term up
to that literal), yet their fingerprints are different output strings: no
rule of the visitor collapses VALUES rows occurring inside a SELECT's
derived table, and `pre_visit_expr` leaves literals alone. -/
theorem values_literal_sensitivity :
    statementToSql (applyStatement []
        (Statement.Query (Query.mk
          (SetExpr.Select (Select.mk none [SelectItem.Wildcard]
            [TableWithJoins.mk
              (TableFactor.Derived
                (Query.mk (SetExpr.Values [[Expr.Value (Value.Number "1")]]) none none)
                none) []]
            none (GroupByExpr.Expressions []))) none none))).2
      ≠ statementToSql (applyStatement []
        (Statement.Query (Query.mk
          (SetExpr.Select (Select.mk none [SelectItem.Wildcard]
            [TableWithJoins.mk
              (TableFactor.Derived
                (Query.mk (SetExpr.Values [[Expr.Value (Value.Number "2")]]) none none)
                none) []]
            none (GroupByExpr.Expressions []))) none none))).2 := by
  decide

end SqlFingerprint
